import Mathlib

/-!
Shallow embedding of the pyhkp HKP client core (pyhkp.py) and proofs about it.

Modelling conventions:
* Python strings are lists of characters (code points); `pyStr` injects Lean
  string literals.
* Python exceptions become the `PyErr` error type of an `Except` result;
  `ValueError` carries its message so that the distinct validation failures
  of the source (invalid key id, invalid operation, missing key material)
  stay distinguishable.
* `datetime.utcfromtimestamp(n)` is injective on the integers handled here,
  so a UTC instant is modelled by its Unix timestamp `n : Int`; an absent
  date is `none`.
* The Python `set` used by `_parse_options` is modelled as a duplicate-free
  list in insertion order.  Iteration order of a Python set is unspecified,
  so only order-insensitive facts (token membership, distinctness, and the
  joined string when at most one order exists) are proved about the result.
* `int(s)` is modelled for optionally signed decimal digit strings with
  surrounding blanks; this covers every literal the claims touch and fails
  on every non-numeric field exactly as the source does.
-/

namespace Pyhkp

/-- A Python string, as a list of characters. -/
abbrev Str := List Char

/-- Inject a Lean string literal into the model. -/
def pyStr (s : String) : Str := s.toList

/-- The Python exception classes the modelled code can raise. -/
inductive PyErr where
  | valueError (msg : Str)
  | indexError
  | attributeError
  | typeError
deriving DecidableEq

/-- Parameter maps (Python dicts of strings) in insertion order. -/
abbrev Params := List (Str × Str)

/-- Lookup in a parameter map, first matching key. -/
def dictGet : Params → Str → Option Str
  | [], _ => none
  | (k, v) :: d, n => if k = n then some v else dictGet d n

/-- Python dict assignment: replace the first entry with the key in place,
otherwise append at the end. -/
def dictSet : Params → Str → Str → Params
  | [], k, v => [(k, v)]
  | (k', v') :: d, k, v =>
    if k' = k then (k, v) :: d else (k', v') :: dictSet d k v

/-- Python `int(s)` accepts surrounding whitespace; the blanks relevant here. -/
def isPySpace (c : Char) : Bool :=
  c == ' ' || c == '\t' || c == '\n' || c == '\r'

/-- Value of a nonempty all-digit string, else `none`. -/
def digitsValAux : Str → Nat → Option Nat
  | [], acc => some acc
  | c :: cs, acc =>
    if c.isDigit then digitsValAux cs (acc * 10 + (c.toNat - 48)) else none

/-- Value of a digit string; the empty string is rejected. -/
def digitsVal : Str → Option Nat
  | [] => none
  | ds => digitsValAux ds 0

/-- Python `int(s)` for base 10: optional sign, decimal digits, blank padding. -/
def pyInt (s : Str) : Option Int :=
  let t := ((s.dropWhile isPySpace).reverse.dropWhile isPySpace).reverse
  match t with
  | '-' :: ds => (digitsVal ds).map (fun n => -(n : Int))
  | '+' :: ds => (digitsVal ds).map (fun n => (n : Int))
  | ds => (digitsVal ds).map (fun n => (n : Int))

/-- `int(s)` as an `Except`, raising `ValueError` like Python. -/
def pyIntE (s : Str) : Except PyErr Int :=
  match pyInt s with
  | some n => .ok n
  | none => .error (.valueError (pyStr "invalid literal for int"))

/-- Python `value[i]`: `IndexError` when out of range. -/
def getF (l : List Str) (i : Nat) : Except PyErr Str :=
  match l[i]? with
  | some v => .ok v
  | none => .error .indexError

/-- One splitting step of Python `s.split(sep)` with explicit fuel; the fuel
is at least the length of `s` at every call site, which makes the zero-fuel
branch unreachable because every step consumes at least one character. -/
def pySplitF (sep : Str) : Nat → Str → Str → List Str
  | _, [], acc => [acc.reverse]
  | 0, s, acc => [acc.reverse ++ s]
  | fuel + 1, c :: rest, acc =>
    if sep.isPrefixOf (c :: rest) then
      acc.reverse :: pySplitF sep fuel ((c :: rest).drop sep.length) []
    else
      pySplitF sep fuel rest (c :: acc)

/-- Python `s.split(sep)` for a nonempty separator: split on every
non-overlapping occurrence, scanning left to right. -/
def pySplit (sep s : Str) : List Str :=
  if sep = [] then [s] else pySplitF sep s.length s []

/-- Whether `sep` occurs as a contiguous run inside `s`. -/
def occursB (sep : Str) : Str → Bool
  | [] => sep.isEmpty
  | c :: rest => sep.isPrefixOf (c :: rest) || occursB sep rest

/-- Source line 76: strip all line feeds, then all carriage returns. -/
def stripCRLF (s : Str) : Str :=
  (s.filter (fun c => !(c == '\n'))).filter (fun c => !(c == '\r'))

/-- Source lines 37-50: `HKP.lookup_pubkey_algorithm`. -/
def lookup_pubkey_algorithm (alg : Int) : Str :=
  if 100 ≤ alg ∧ alg ≤ 110 then pyStr "Private/Experimental algorithm"
  else if alg = 1 then pyStr "RSA Encrypt or Sign"
  else if alg = 2 then pyStr "RSA Encrypt-Only"
  else if alg = 3 then pyStr "RSA Sign-Only"
  else if alg = 16 then pyStr "ElGamal Encrypt-Only"
  else if alg = 17 then pyStr "DSA"
  else if alg = 18 then pyStr "Elliptic Curve"
  else if alg = 19 then pyStr "ECDSA"
  else if alg = 20 then pyStr "Formerly ElGamal Encrypt or Sign"
  else if alg = 21 then pyStr "Diffie-Hellman"
  else pyStr "Unknown"

/-- Source lines 62-72: `convert_date_if_set`; an empty field is absent, a
nonempty field must parse as an integer timestamp. -/
def convert_date_if_set (date : Str) : Except PyErr (Option Int) :=
  if date = pyStr "" then .ok none
  else
    match pyInt date with
    | some n => .ok (some n)
    | none => .error (.valueError (pyStr "invalid literal for int"))

/-- The `primary_key` dict of a parsed key (source lines 98-109). -/
structure PrimaryKey where
  key_id : Str
  algorithm_id : Int
  algorithm : Str
  key_length : Int
  creation : Option Int
  expiration : Option Int
  revoked : Bool
  disabled : Bool
  expired : Bool
deriving DecidableEq

/-- One `user_ids` entry of a parsed key (source lines 114-121). -/
structure UidRecord where
  user_id : Str
  creation : Option Int
  expiration : Option Int
  revoked : Bool
  disabled : Bool
  expired : Bool
deriving DecidableEq

/-- One parsed key: `primary_key` starts as the empty dict (`none`) and
`user_ids` as the empty list (source lines 87-90). -/
structure KeyDict where
  primary_key : Option PrimaryKey
  user_ids : List UidRecord
deriving DecidableEq

/-- Source lines 94-122: handle one `:`-split piece of a `pub` segment; more
than 4 fields means primary-key tail, otherwise identity block.  The field
accesses and integer conversions happen in the evaluation order of the
source dict literals. -/
def processPiece (kd : KeyDict) (piece : Str) : Except PyErr KeyDict := do
  let value := pySplit (pyStr ":") piece
  if 4 < value.length then
    let v1 ← getF value 1
    let v2 ← getF value 2
    let a ← pyIntE v2
    let v3 ← getF value 3
    let kl ← pyIntE v3
    let v4 ← getF value 4
    let cr ← convert_date_if_set v4
    let v5 ← getF value 5
    let ex ← convert_date_if_set v5
    let v6 ← getF value 6
    pure { kd with primary_key := some {
      key_id := v1
      algorithm_id := a
      algorithm := lookup_pubkey_algorithm a
      key_length := kl
      creation := cr
      expiration := ex
      revoked := v6.contains 'r'
      disabled := v6.contains 'd'
      expired := v6.contains 'e' } }
  else
    let v0 ← getF value 0
    let v1 ← getF value 1
    let cr ← convert_date_if_set v1
    let v2 ← getF value 2
    let ex ← convert_date_if_set v2
    let v3 ← getF value 3
    pure { kd with user_ids := kd.user_ids ++ [{
      user_id := v0
      creation := cr
      expiration := ex
      revoked := v3.contains 'r'
      disabled := v3.contains 'd'
      expired := v3.contains 'e' }] }

/-- The inner loop over the `uid:`-split pieces of one segment. -/
def piecesLoop : List Str → KeyDict → Except PyErr KeyDict
  | [], kd => .ok kd
  | p :: rest, kd =>
    match processPiece kd p with
    | .error e => .error e
    | .ok kd2 => piecesLoop rest kd2

/-- Source lines 92-122: one `pub`-split segment becomes one key dict. -/
def processSegment (seg : Str) : Except PyErr KeyDict :=
  piecesLoop (pySplit (pyStr "uid:") seg) { primary_key := none, user_ids := [] }

/-- The outer loop over `pub`-split segments: `info`-prefixed segments are
skipped, parsed keys are appended in segment order. -/
def segsLoop : List Str → List KeyDict → Except PyErr (List KeyDict)
  | [], acc => .ok acc
  | seg :: rest, acc =>
    if (pyStr "info").isPrefixOf seg then segsLoop rest acc
    else
      match processSegment seg with
      | .error e => .error e
      | .ok kd => segsLoop rest (acc ++ [kd])

/-- Source lines 52-124: `HKP._parse_index`. -/
def parseIndex (body : Str) : Except PyErr (List KeyDict) :=
  segsLoop (pySplit (pyStr "pub") (stripCRLF body)) []

/-- The `options` argument of the source methods: Python `None`, or a tuple
whose entries are strings or `None` (the default is the tuple `(None,)`). -/
inductive OptionsArg where
  | pyNone : OptionsArg
  | tup : List (Option Str) → OptionsArg

/-- An option token is kept when it equals `nm` or starts with `x-`
(source line 142). -/
def keepOpt (s : Str) : Bool :=
  s == pyStr "nm" || (pyStr "x-").isPrefixOf s

/-- Python `set.add`: insert at the end unless already present. -/
def addDistinct (ops : List Str) (s : Str) : List Str :=
  if s ∈ ops then ops else ops ++ [s]

/-- One iteration of the option filter fold. -/
def keepFold (ops : List Str) (s : Str) : List Str :=
  if keepOpt s then addDistinct ops s else ops

/-- The loop of source lines 141-143; a `None` entry reaches
`None.startswith` and raises `AttributeError`. -/
def optsLoop : List (Option Str) → List Str → Except PyErr (List Str)
  | [], ops => .ok ops
  | none :: _, _ => .error .attributeError
  | some s :: rest, ops => optsLoop rest (keepFold ops s)

/-- Source lines 126-145, token set of `HKP._parse_options`: the set always
holds `mr`; the loop only runs when the argument is a tuple whose first
entry is not `None`, and an empty tuple raises `IndexError` at
`options[0]`. -/
def parse_options_tokens (options : OptionsArg) : Except PyErr (List Str) :=
  match options with
  | .pyNone => .ok [pyStr "mr"]
  | .tup [] => .error .indexError
  | .tup (none :: _) => .ok [pyStr "mr"]
  | .tup (some s :: rest) => optsLoop (some s :: rest) [pyStr "mr"]

/-- Comma join of the option tokens (source line 145). -/
def joinComma : List Str → Str
  | [] => []
  | [s] => s
  | s :: rest => s ++ ',' :: joinComma rest

/-- Source lines 126-145: `HKP._parse_options`, the comma-joined option
string. -/
def parse_options (options : OptionsArg) : Except PyErr Str :=
  match parse_options_tokens options with
  | .error e => .error e
  | .ok ts => .ok (joinComma ts)

/-- The accepted key id lengths of source lines 160-161. -/
def acceptedLength (n : Nat) : Bool :=
  n == 8 || n == 10 || n == 16 || n == 20 || n == 32 || n == 34 || n == 40 || n == 42

/-- Source lines 160-168: the key id validation and `0x`-prefixing performed
by `HKP.retrieve` before building parameters. -/
def normalize (key_id : Option Str) : Except PyErr Str :=
  match key_id with
  | none => .error (.valueError (pyStr "no or invalid key id"))
  | some k =>
    if acceptedLength k.length then
      if (pyStr "0x").isPrefixOf k then .ok k else .ok (pyStr "0x" ++ k)
    else .error (.valueError (pyStr "no or invalid key id"))

/-- Source lines 147-174: the parameter map built by `HKP.retrieve`
(the network exchange is outside the modelled core). -/
def retrieve (key_id : Option Str) (options : OptionsArg) : Except PyErr Params :=
  match normalize key_id with
  | .error e => .error e
  | .ok k =>
    match parse_options options with
    | .error e => .error e
    | .ok opts =>
      .ok [(pyStr "search", k), (pyStr "op", pyStr "get"), (pyStr "options", opts)]

/-- The loop of source lines 237-240: merge every extra variable whose name
starts with `x-`; a `None` entry raises `TypeError` at `var[0]`. -/
def varsLoop : List (Option (Str × Str)) → Params → Except PyErr Params
  | [], d => .ok d
  | none :: _, _ => .error .typeError
  | some (n, v) :: rest, d =>
    varsLoop rest (if (pyStr "x-").isPrefixOf n then dictSet d n v else d)

/-- One extra-variable merge step, as a pure fold. -/
def updVar (d : Params) (p : Str × Str) : Params :=
  if (pyStr "x-").isPrefixOf p.1 then dictSet d p.1 p.2 else d

/-- Source lines 184-240: the parameter map built by `HKP.search`.  The
operation is checked first; the base dict holds `search`, `op`, `options`
and the coerced `exact` flag; then the extra variables are merged when the
first of them is not the `None` sentinel (an empty tuple raises
`IndexError` at `other_variables[0]`). -/
def search (query operation exact : Str) (options : OptionsArg)
    (other_variables : List (Option (Str × Str))) : Except PyErr Params :=
  if operation ≠ pyStr "index" ∧ (pyStr "x-").isPrefixOf operation = false then
    .error (.valueError (pyStr "operation not allowed"))
  else
    match parse_options options with
    | .error e => .error e
    | .ok opts =>
      let params : Params :=
        [(pyStr "search", query), (pyStr "op", operation), (pyStr "options", opts),
         (pyStr "exact", if exact = pyStr "on" ∨ exact = pyStr "off" then exact else pyStr "off")]
      match other_variables with
      | [] => .error .indexError
      | none :: _ => .ok params
      | some v :: rest => varsLoop (some v :: rest) params

/-- Source lines 251-269: the body-parameter map built by `HKP.submit`. -/
def submit (keys : Option Str) (options : OptionsArg) : Except PyErr Params :=
  match keys with
  | none => .error (.valueError (pyStr "no key(s) given"))
  | some k =>
    match parse_options options with
    | .error e => .error e
    | .ok opts => .ok [(pyStr "keytext", k), (pyStr "options", opts)]

/-! ### Helper lemmas -/

theorem isPrefixOf_append (p t : Str) : p.isPrefixOf (p ++ t) = true := by
  induction p with
  | nil => simp [List.isPrefixOf]
  | cons c p ih => simp [List.isPrefixOf, ih]

theorem length_prefix0x (x : Str) : (pyStr "0x" ++ x).length = x.length + 2 := by
  rw [List.length_append]
  rw [show (pyStr "0x").length = 2 from rfl]
  omega

theorem pySplitF_of_not_occurs (sep : Str) (fuel : Nat) :
    ∀ (s acc : Str), occursB sep s = false →
      pySplitF sep fuel s acc = [acc.reverse ++ s] := by
  induction fuel with
  | zero =>
    intro s acc _
    cases s with
    | nil => simp [pySplitF]
    | cons c rest => simp [pySplitF]
  | succ n ih =>
    intro s acc h
    cases s with
    | nil => simp [pySplitF]
    | cons c rest =>
      have h' : sep.isPrefixOf (c :: rest) = false ∧ occursB sep rest = false := by
        simpa [occursB] using h
      rw [pySplitF, if_neg (by simp [h'.1])]
      rw [ih rest (c :: acc) h'.2]
      simp

/-! ### C1: idempotence of key id normalization -/

/-- C1 counterexample: the 10-character id `AAAAAAAAAA` is accepted by the
validation of `retrieve` (length 10 is in the accepted set) and normalizes
to `0xAAAAAAAAAA`, but that 12-character output is itself rejected, so
normalize(normalize(x)) fails rather than returning normalize(x): the claim
is false as stated. -/
theorem normalize_not_idempotent_len10 :
    normalize (some (pyStr "AAAAAAAAAA")) = .ok (pyStr "0xAAAAAAAAAA") ∧
    normalize (some (pyStr "0xAAAAAAAAAA")) =
      .error (.valueError (pyStr "no or invalid key id")) :=
  ⟨rfl, rfl⟩

/-- C1 (amended): normalization is idempotent for every accepted key id
that already starts with `0x`, and for every accepted id of length 8, 32 or
40 (whose prefixed output has length 10, 34 or 42, again accepted). -/
theorem normalize_idem_amended (x y : Str)
    (hok : normalize (some x) = .ok y)
    (hx : (pyStr "0x").isPrefixOf x = true ∨
      x.length = 8 ∨ x.length = 32 ∨ x.length = 40) :
    normalize (some y) = .ok y := by
  have hok2 : (if acceptedLength x.length = true then
      (if (pyStr "0x").isPrefixOf x = true then Except.ok x
        else Except.ok (pyStr "0x" ++ x))
      else (Except.error (PyErr.valueError (pyStr "no or invalid key id")) :
        Except PyErr Str)) = Except.ok y := hok
  show (if acceptedLength y.length = true then
      (if (pyStr "0x").isPrefixOf y = true then Except.ok y
        else Except.ok (pyStr "0x" ++ y))
      else Except.error (PyErr.valueError (pyStr "no or invalid key id"))) = Except.ok y
  by_cases hal : acceptedLength x.length = true
  · rw [if_pos hal] at hok2
    cases hpfx : (pyStr "0x").isPrefixOf x with
    | true =>
      rw [if_pos hpfx] at hok2
      obtain rfl : x = y := by simpa using hok2
      rw [if_pos hal, if_pos hpfx]
    | false =>
      rw [if_neg (by simp [hpfx])] at hok2
      obtain rfl : pyStr "0x" ++ x = y := by simpa using hok2
      have hp2 : (pyStr "0x").isPrefixOf (pyStr "0x" ++ x) = true :=
        isPrefixOf_append _ _
      have hal2 : acceptedLength (pyStr "0x" ++ x).length = true := by
        rcases hx with h | h | h | h
        · rw [h] at hpfx; cases hpfx
        all_goals rw [length_prefix0x, h]; rfl
      rw [if_pos hal2, if_pos hp2]
  · rw [if_neg hal] at hok2
    cases hok2

/-- C1 witness: the unprefixed 8-character id is accepted, and the amended
idempotence theorem applies to it. -/
theorem normalize_idem_amended_witness :
    normalize (some (pyStr "AAAAAAAA")) = .ok (pyStr "0xAAAAAAAA") ∧
    normalize (some (pyStr "0xAAAAAAAA")) = .ok (pyStr "0xAAAAAAAA") :=
  ⟨rfl, normalize_idem_amended (pyStr "AAAAAAAA") (pyStr "0xAAAAAAAA") rfl
    (Or.inr (Or.inl rfl))⟩

/-! ### C3: bodies with zero keys -/

/-- C3 counterexample: the empty body has no `pub` segment, yet parsing it
raises `IndexError` (the single empty segment is not `info`-prefixed and its
lone empty field sends it into the identity branch, which reads `value[1]`),
so the claim that every zero-key body yields the empty sequence is false. -/
theorem parseIndex_empty_body_errors :
    parseIndex (pyStr "") = .error .indexError ∧ parseIndex (pyStr "") ≠ .ok [] :=
  ⟨rfl, fun h => by rw [show parseIndex (pyStr "") = .error .indexError from rfl] at h; cases h⟩

/-- C3 (amended): every body that, after line-break stripping, starts with
`info` and contains no occurrence of `pub` (e.g. a lone
`info:<version>:<count>` line) parses to the empty sequence of key
records. -/
theorem parseIndex_info_only_ok (body : Str)
    (h1 : (pyStr "info").isPrefixOf (stripCRLF body) = true)
    (h2 : occursB (pyStr "pub") (stripCRLF body) = false) :
    parseIndex body = .ok [] := by
  unfold parseIndex pySplit
  rw [if_neg (by decide : ¬(pyStr "pub" = ([] : Str)))]
  rw [pySplitF_of_not_occurs (pyStr "pub") (stripCRLF body).length (stripCRLF body) [] h2]
  simp [segsLoop, h1]

/-- C3 witness: the body `info:1:0` followed by a line feed parses to the
empty sequence via the amended theorem. -/
theorem parseIndex_info_only_ok_witness :
    (pyStr "info").isPrefixOf (stripCRLF (pyStr "info:1:0\n")) = true ∧
    occursB (pyStr "pub") (stripCRLF (pyStr "info:1:0\n")) = false ∧
    parseIndex (pyStr "info:1:0\n") = .ok [] :=
  ⟨rfl, rfl, parseIndex_info_only_ok (pyStr "info:1:0\n") rfl rfl⟩

/-! ### C2, C4, C5: concrete index parsing -/

/-- C2: parsing `info:1:1` followed by the single block
`pub:AABBCCDD:17:2048:1136214245::` yields exactly one record with an empty
identities sequence, key id `AABBCCDD`, algorithm 17 named `DSA`, key
length 2048, creation at Unix timestamp 1136214245, expiration absent, and
all three status flags false. -/
theorem parseIndex_single_pub_dsa :
    parseIndex (pyStr "info:1:1\npub:AABBCCDD:17:2048:1136214245::") =
      .ok [{ primary_key := some {
               key_id := pyStr "AABBCCDD"
               algorithm_id := 17
               algorithm := pyStr "DSA"
               key_length := 2048
               creation := some 1136214245
               expiration := none
               revoked := false
               disabled := false
               expired := false }
             user_ids := [] }] := rfl

/-- C4 failing input: the body `info:1:1` followed by the malformed
primary-key tail `pub:12345678:17:2048` (too few colon-delimited fields)
does NOT fail fast: the 4-field tail is misclassified as an identity block
by the field-count heuristic, and parsing silently returns one record whose
primary key is still the initial empty dict and whose identity is
fabricated from the pub fields.  This contradicts the claimed fail-fast
behaviour. -/
theorem parseIndex_short_pub_tail_partial_record :
    parseIndex (pyStr "info:1:1\npub:12345678:17:2048") =
      .ok [{ primary_key := none
             user_ids := [{ user_id := pyStr ""
                            creation := some 12345678
                            expiration := some 17
                            revoked := false
                            disabled := false
                            expired := false }] }] := rfl

/-- C5: the identity block `uid:Jane Doe <jane@example.org>:0::e` (inside a
well-formed index body) parses to an identity with the given user id,
expired true, revoked and disabled false, expiration absent, and creation
equal to the epoch instant (timestamp 0, present because the field is the
non-empty string `0`). -/
theorem parseIndex_uid_epoch_flags :
    parseIndex (pyStr
        "info:1:1\npub:AABBCCDD:17:2048:1136214245::\nuid:Jane Doe <jane@example.org>:0::e") =
      .ok [{ primary_key := some {
               key_id := pyStr "AABBCCDD"
               algorithm_id := 17
               algorithm := pyStr "DSA"
               key_length := 2048
               creation := some 1136214245
               expiration := none
               revoked := false
               disabled := false
               expired := false }
             user_ids := [{ user_id := pyStr "Jane Doe <jane@example.org>"
                            creation := some 0
                            expiration := none
                            revoked := false
                            disabled := false
                            expired := true }] }] := rfl

/-! ### Option encoder lemmas -/

theorem optsLoop_shape (l : List (Option Str)) :
    ∀ ops : List Str,
      (∃ ts, optsLoop l ops = .ok ts) ∨ optsLoop l ops = .error .attributeError := by
  induction l with
  | nil => exact fun ops => Or.inl ⟨ops, rfl⟩
  | cons o rest ih =>
    intro ops
    cases o with
    | none => exact Or.inr rfl
    | some s => exact ih (keepFold ops s)

theorem optsLoop_map_some (l : List Str) :
    ∀ ops : List Str, optsLoop (l.map some) ops = .ok (l.foldl keepFold ops) := by
  induction l with
  | nil => exact fun ops => rfl
  | cons s rest ih =>
    intro ops
    simpa [optsLoop] using ih (keepFold ops s)

theorem parse_options_tokens_shape (oa : OptionsArg) :
    (∃ ts, parse_options_tokens oa = .ok ts) ∨
      parse_options_tokens oa = .error .indexError ∨
      parse_options_tokens oa = .error .attributeError := by
  cases oa with
  | pyNone => exact Or.inl ⟨_, rfl⟩
  | tup l =>
    cases l with
    | nil => exact Or.inr (Or.inl rfl)
    | cons o rest =>
      cases o with
      | none => exact Or.inl ⟨_, rfl⟩
      | some s =>
        rcases optsLoop_shape (some s :: rest) [pyStr "mr"] with ⟨ts, h⟩ | h
        · exact Or.inl ⟨ts, h⟩
        · exact Or.inr (Or.inr h)

theorem parse_options_shape (oa : OptionsArg) :
    (∃ s, parse_options oa = .ok s) ∨
      parse_options oa = .error .indexError ∨
      parse_options oa = .error .attributeError := by
  rcases parse_options_tokens_shape oa with ⟨ts, h⟩ | h | h
  · exact Or.inl ⟨joinComma ts, by simp [parse_options, h]⟩
  · exact Or.inr (Or.inl (by simp [parse_options, h]))
  · exact Or.inr (Or.inr (by simp [parse_options, h]))

theorem parse_options_ne_valueError (oa : OptionsArg) (m : Str) :
    parse_options oa ≠ .error (.valueError m) := by
  rcases parse_options_shape oa with ⟨s, h⟩ | h | h <;> simp [h]

theorem mem_addDistinct (ops : List Str) (s t : Str) :
    t ∈ addDistinct ops s ↔ t ∈ ops ∨ t = s := by
  unfold addDistinct
  by_cases h : s ∈ ops
  · rw [if_pos h]
    constructor
    · exact fun ht => Or.inl ht
    · rintro (ht | rfl)
      · exact ht
      · exact h
  · rw [if_neg h]
    simp

theorem nodup_addDistinct (ops : List Str) (s : Str) (h : ops.Nodup) :
    (addDistinct ops s).Nodup := by
  unfold addDistinct
  by_cases hm : s ∈ ops
  · rwa [if_pos hm]
  · rw [if_neg hm]
    simp [List.nodup_append, h, hm]

theorem mem_foldl_keepFold (l : List Str) :
    ∀ (ops : List Str) (t : Str),
      t ∈ l.foldl keepFold ops ↔ t ∈ ops ∨ (t ∈ l ∧ keepOpt t = true) := by
  induction l with
  | nil => simp
  | cons s rest ih =>
    intro ops t
    rw [List.foldl_cons, ih]
    unfold keepFold
    by_cases hk : keepOpt s = true
    · rw [if_pos hk, mem_addDistinct]
      constructor
      · rintro ((ht | rfl) | ⟨hm, hkt⟩)
        · exact Or.inl ht
        · exact Or.inr ⟨List.mem_cons_self _ _, hk⟩
        · exact Or.inr ⟨List.mem_cons_of_mem _ hm, hkt⟩
      · rintro (ht | ⟨hm, hkt⟩)
        · exact Or.inl (Or.inl ht)
        · rcases List.mem_cons.mp hm with rfl | hm
          · exact Or.inl (Or.inr rfl)
          · exact Or.inr ⟨hm, hkt⟩
    · rw [if_neg hk]
      constructor
      · rintro (ht | ⟨hm, hkt⟩)
        · exact Or.inl ht
        · exact Or.inr ⟨List.mem_cons_of_mem _ hm, hkt⟩
      · rintro (ht | ⟨hm, hkt⟩)
        · exact Or.inl ht
        · rcases List.mem_cons.mp hm with rfl | hm
          · exact absurd hkt hk
          · exact Or.inr ⟨hm, hkt⟩

theorem nodup_foldl_keepFold (l : List Str) :
    ∀ ops : List Str, ops.Nodup → (l.foldl keepFold ops).Nodup := by
  induction l with
  | nil => exact fun ops h => by simpa using h
  | cons s rest ih =>
    intro ops h
    rw [List.foldl_cons]
    apply ih
    unfold keepFold
    by_cases hk : keepOpt s = true
    · rw [if_pos hk]
      exact nodup_addDistinct _ _ h
    · rwa [if_neg hk]

/-! ### C6, C7: the option encoder -/

/-- C6 counterexample: the empty sequence of option strings is a supplied
sequence, yet encoding it raises `IndexError` at `options[0]` instead of
returning an encoded string, so the claim quantified over every supplied
sequence is false. -/
theorem parse_options_empty_raises :
    parse_options (.tup []) = .error .indexError := rfl

/-- C6 (amended): for every NON-empty sequence of option strings the token
set of the encoded string is duplicate-free, always contains `mr`, and
holds exactly the supplied tokens equal to `nm` or starting with `x-`
besides `mr`, with no error raised; encoding `("foo", "bar")` yields
exactly `mr`. -/
theorem parse_options_nonempty_content :
    (∀ (o : Str) (os : List Str), ∃ ts,
      parse_options_tokens (.tup ((o :: os).map some)) = .ok ts ∧
      parse_options (.tup ((o :: os).map some)) = .ok (joinComma ts) ∧
      ts.Nodup ∧ pyStr "mr" ∈ ts ∧
      (∀ t, t ∈ ts ↔ t = pyStr "mr" ∨
        (t ∈ o :: os ∧ (t = pyStr "nm" ∨ (pyStr "x-").isPrefixOf t = true)))) ∧
    parse_options (.tup [some (pyStr "foo"), some (pyStr "bar")]) = .ok (pyStr "mr") := by
  constructor
  · intro o os
    have h1 : parse_options_tokens (.tup ((o :: os).map some)) =
        .ok ((o :: os).foldl keepFold [pyStr "mr"]) :=
      optsLoop_map_some (o :: os) [pyStr "mr"]
    have h2 : parse_options (.tup ((o :: os).map some)) =
        .ok (joinComma ((o :: os).foldl keepFold [pyStr "mr"])) := by
      unfold parse_options
      rw [h1]
    refine ⟨(o :: os).foldl keepFold [pyStr "mr"], h1, h2, ?_, ?_, ?_⟩
    · exact nodup_foldl_keepFold _ _ (by simp)
    · exact (mem_foldl_keepFold _ _ _).mpr (Or.inl (by simp))
    · intro t
      rw [mem_foldl_keepFold]
      simp [keepOpt]
  · rfl

/-- C7 counterexample: the option encoder is not total over its contract
domain: on the empty sequence it fails instead of returning a string. -/
theorem parse_options_empty_not_total :
    ¬∃ s, parse_options (.tup []) = .ok s := by
  rintro ⟨s, h⟩
  rw [show parse_options (.tup []) = .error .indexError from rfl] at h
  cases h

/-- C7 (amended): the option encoder returns a string for the `None`
argument and for every non-empty sequence of option strings; only the empty
sequence makes it raise. -/
theorem parse_options_total_nonempty :
    parse_options .pyNone = .ok (pyStr "mr") ∧
    (∀ (o : Str) (os : List Str), ∃ s,
      parse_options (.tup ((o :: os).map some)) = .ok s) := by
  refine ⟨rfl, fun o os => ?_⟩
  have h1 : parse_options_tokens (.tup ((o :: os).map some)) =
      .ok ((o :: os).foldl keepFold [pyStr "mr"]) :=
    optsLoop_map_some (o :: os) [pyStr "mr"]
  refine ⟨joinComma ((o :: os).foldl keepFold [pyStr "mr"]), ?_⟩
  unfold parse_options
  rw [h1]

/-! ### Search and submit lemmas -/

theorem varsLoop_shape (l : List (Option (Str × Str))) :
    ∀ d : Params, (∃ m, varsLoop l d = .ok m) ∨ varsLoop l d = .error .typeError := by
  induction l with
  | nil => exact fun d => Or.inl ⟨d, rfl⟩
  | cons v rest ih =>
    intro d
    cases v with
    | none => exact Or.inr rfl
    | some p =>
      obtain ⟨n, w⟩ := p
      exact ih _

theorem search_valid_not_valueError (q op ex : Str) (oa : OptionsArg)
    (ovs : List (Option (Str × Str)))
    (hop : ¬(op ≠ pyStr "index" ∧ (pyStr "x-").isPrefixOf op = false)) (m : Str) :
    search q op ex oa ovs ≠ .error (.valueError m) := by
  unfold search
  rw [if_neg hop]
  rcases parse_options_shape oa with ⟨s, hs⟩ | hs | hs <;> rw [hs]
  · cases ovs with
    | nil => simp
    | cons v rest =>
      cases v with
      | none => simp
      | some p =>
        rcases varsLoop_shape (some p :: rest)
            [(pyStr "search", q), (pyStr "op", op), (pyStr "options", s),
             (pyStr "exact", if ex = pyStr "on" ∨ ex = pyStr "off" then ex else pyStr "off")]
          with ⟨m2, hm⟩ | hm <;> simp [hm]
  · simp
  · simp

/-! ### C8: search operation validation -/

/-- C8: building search parameters raises the invalid-operation error
exactly when the operation is neither `index` nor `x-`-prefixed; the
operation `y-bad` fails, `x-custom` succeeds, and on failure no parameter
map is produced (the result is an error, not a map). -/
theorem search_invalid_operation_iff :
    (∀ (q op ex : Str) (oa : OptionsArg) (ovs : List (Option (Str × Str))),
      search q op ex oa ovs = .error (.valueError (pyStr "operation not allowed")) ↔
        (op ≠ pyStr "index" ∧ (pyStr "x-").isPrefixOf op = false)) ∧
    search (pyStr "q") (pyStr "y-bad") (pyStr "off") (.tup [none]) [none] =
      .error (.valueError (pyStr "operation not allowed")) ∧
    search (pyStr "q") (pyStr "x-custom") (pyStr "off") (.tup [none]) [none] =
      .ok [(pyStr "search", pyStr "q"), (pyStr "op", pyStr "x-custom"),
           (pyStr "options", pyStr "mr"), (pyStr "exact", pyStr "off")] := by
  refine ⟨fun q op ex oa ovs => ⟨fun h => ?_, fun hc => ?_⟩, rfl, rfl⟩
  · by_contra hc
    exact search_valid_not_valueError q op ex oa ovs hc _ h
  · unfold search
    rw [if_pos hc]

/-! ### C9: submit key material validation -/

/-- C9: submit fails with the no-key-material error exactly when the key
payload is absent; every present payload, the empty string included,
produces the body-parameter map of `keytext` and the encoded options. -/
theorem submit_no_key_material_spec :
    (∀ (keys : Option Str) (oa : OptionsArg),
      submit keys oa = .error (.valueError (pyStr "no key(s) given")) ↔ keys = none) ∧
    (∀ (p : Str) (oa : OptionsArg) (s : Str),
      parse_options oa = .ok s →
      submit (some p) oa = .ok [(pyStr "keytext", p), (pyStr "options", s)]) := by
  constructor
  · intro keys oa
    constructor
    · intro h
      cases keys with
      | none => rfl
      | some k =>
        exfalso
        unfold submit at h
        rcases parse_options_shape oa with ⟨s, hs⟩ | hs | hs <;> rw [hs] at h <;>
          simp at h
    · rintro rfl
      rfl
  · intro p oa s hs
    unfold submit
    rw [hs]

/-- C9 witness: the empty-string payload with the default `None` options
produces the body-parameter map. -/
theorem submit_no_key_material_spec_witness :
    parse_options .pyNone = .ok (pyStr "mr") ∧
    submit (some (pyStr "")) .pyNone =
      .ok [(pyStr "keytext", pyStr ""), (pyStr "options", pyStr "mr")] :=
  ⟨rfl, submit_no_key_material_spec.2 (pyStr "") .pyNone (pyStr "mr") rfl⟩

/-! ### C10: extra search variables -/

/-- The value of the last pair carrying a given name, if any: merging
overwrites, so the last supplied pair wins. -/
def lastVal : List (Str × Str) → Str → Option Str
  | [], _ => none
  | (k, v) :: es, n =>
    match lastVal es n with
    | some w => some w
    | none => if k = n then some v else none

theorem dictGet_dictSet (d : Params) :
    ∀ (k v n : Str), dictGet (dictSet d k v) n = if k = n then some v else dictGet d n := by
  induction d with
  | nil => intro k v n; rfl
  | cons hd tl ih =>
    intro k v n
    obtain ⟨k', v'⟩ := hd
    unfold dictSet
    by_cases h1 : k' = k
    · subst h1
      rw [if_pos rfl]
      by_cases h2 : k' = n
      · simp [dictGet, h2]
      · simp [dictGet, h2]
    · rw [if_neg h1]
      by_cases h2 : k' = n
      · subst h2
        have h3 : ¬(k = k') := fun he => h1 he.symm
        simp [dictGet, h3]
      · simp [dictGet, h2, ih k v n]

theorem varsLoop_map_some (es : List (Str × Str)) :
    ∀ d : Params, varsLoop (es.map some) d = .ok (es.foldl updVar d) := by
  induction es with
  | nil => exact fun d => rfl
  | cons p rest ih =>
    intro d
    obtain ⟨n, v⟩ := p
    simpa [varsLoop, updVar] using ih (updVar d (n, v))

theorem dictGet_foldl_updVar_notx (es : List (Str × Str)) :
    ∀ (d : Params) (n : Str), (pyStr "x-").isPrefixOf n = false →
      dictGet (es.foldl updVar d) n = dictGet d n := by
  induction es with
  | nil => intros; rfl
  | cons p rest ih =>
    intro d n hn
    rw [List.foldl_cons, ih _ _ hn]
    unfold updVar
    by_cases hp : (pyStr "x-").isPrefixOf p.1 = true
    · rw [if_pos hp, dictGet_dictSet]
      have hne : ¬(p.1 = n) := fun he => by rw [he] at hp; rw [hp] at hn; cases hn
      rw [if_neg hne]
    · rw [if_neg hp]

theorem dictGet_foldl_updVar_x (es : List (Str × Str)) :
    ∀ (d : Params) (n : Str), (pyStr "x-").isPrefixOf n = true →
      dictGet (es.foldl updVar d) n =
        (match lastVal es n with | some w => some w | none => dictGet d n) := by
  induction es with
  | nil => intros; rfl
  | cons p rest ih =>
    intro d n hn
    obtain ⟨k, v⟩ := p
    rw [List.foldl_cons, ih _ _ hn]
    cases hlv : lastVal rest n with
    | some w => simp [lastVal, hlv]
    | none =>
      simp only [lastVal, hlv]
      unfold updVar
      by_cases hk : k = n
      · subst hk
        rw [if_pos hn, dictGet_dictSet]
        simp
      · simp only [if_neg hk]
        by_cases hp : (pyStr "x-").isPrefixOf k = true
        · rw [if_pos hp, dictGet_dictSet, if_neg hk]
        · rw [if_neg hp]

theorem dictGet_base_params_x (q op opts exv n : Str)
    (hn : (pyStr "x-").isPrefixOf n = true) :
    dictGet [(pyStr "search", q), (pyStr "op", op), (pyStr "options", opts),
      (pyStr "exact", exv)] n = none := by
  have h1 : ¬(pyStr "search" = n) := fun he => by
    rw [← he] at hn; exact absurd hn (by decide)
  have h2 : ¬(pyStr "op" = n) := fun he => by
    rw [← he] at hn; exact absurd hn (by decide)
  have h3 : ¬(pyStr "options" = n) := fun he => by
    rw [← he] at hn; exact absurd hn (by decide)
  have h4 : ¬(pyStr "exact" = n) := fun he => by
    rw [← he] at hn; exact absurd hn (by decide)
  simp [dictGet, h1, h2, h3, h4]

/-- C10: for every search call carrying a non-empty tuple of extra
(name, value) pairs (with a valid operation and successfully encoded
options), the produced parameter map ignores every pair whose name does not
start with `x-` without raising (lookup of any non-`x-` name gives what the
base map gives), while lookup of any `x-`-prefixed name gives the value of
the last supplied pair under that name. -/
theorem search_extra_variables_spec (q op ex : Str) (oa : OptionsArg) (ts : Str)
    (e : Str × Str) (es : List (Str × Str))
    (hop : op = pyStr "index" ∨ (pyStr "x-").isPrefixOf op = true)
    (hopts : parse_options oa = .ok ts) :
    (∀ n, (pyStr "x-").isPrefixOf n = false →
      (search q op ex oa ((e :: es).map some)).map (fun m => dictGet m n) =
        .ok (dictGet [(pyStr "search", q), (pyStr "op", op), (pyStr "options", ts),
          (pyStr "exact", if ex = pyStr "on" ∨ ex = pyStr "off" then ex else pyStr "off")] n)) ∧
    (∀ n, (pyStr "x-").isPrefixOf n = true →
      (search q op ex oa ((e :: es).map some)).map (fun m => dictGet m n) =
        .ok (lastVal (e :: es) n)) := by
  have hcond : ¬(op ≠ pyStr "index" ∧ (pyStr "x-").isPrefixOf op = false) := by
    rcases hop with h | h
    · exact fun hc => hc.1 h
    · exact fun hc => by rw [h] at hc; cases hc.2
  have hsearch : search q op ex oa ((e :: es).map some) =
      .ok ((e :: es).foldl updVar
        [(pyStr "search", q), (pyStr "op", op), (pyStr "options", ts),
         (pyStr "exact", if ex = pyStr "on" ∨ ex = pyStr "off" then ex else pyStr "off")]) := by
    unfold search
    rw [if_neg hcond, hopts]
    exact varsLoop_map_some (e :: es) _
  constructor
  · intro n hn
    rw [hsearch]
    simp only [Except.map]
    rw [dictGet_foldl_updVar_notx _ _ _ hn]
  · intro n hn
    rw [hsearch]
    simp only [Except.map]
    rw [dictGet_foldl_updVar_x _ _ _ hn]
    cases hlv : lastVal (e :: es) n with
    | some w => simp [hlv]
    | none => simp [hlv, dictGet_base_params_x q op ts _ n hn]

/-- C10 witness: with extras `x-a=1`, `y-b=2`, `x-a=3` the produced map
binds `x-a` to the last value `3`, and leaves the non-`x-` name `y-b`
unbound exactly as the base map does. -/
theorem search_extra_variables_spec_witness :
    parse_options .pyNone = .ok (pyStr "mr") ∧
    (search (pyStr "q") (pyStr "index") (pyStr "off") .pyNone
        ([((pyStr "x-a", pyStr "1") : Str × Str), (pyStr "y-b", pyStr "2"),
          (pyStr "x-a", pyStr "3")].map some)).map
      (fun m => dictGet m (pyStr "x-a")) =
      .ok (lastVal [((pyStr "x-a", pyStr "1") : Str × Str), (pyStr "y-b", pyStr "2"),
        (pyStr "x-a", pyStr "3")] (pyStr "x-a")) ∧
    lastVal [((pyStr "x-a", pyStr "1") : Str × Str), (pyStr "y-b", pyStr "2"),
      (pyStr "x-a", pyStr "3")] (pyStr "x-a") = some (pyStr "3") ∧
    (search (pyStr "q") (pyStr "index") (pyStr "off") .pyNone
        ([((pyStr "x-a", pyStr "1") : Str × Str), (pyStr "y-b", pyStr "2"),
          (pyStr "x-a", pyStr "3")].map some)).map
      (fun m => dictGet m (pyStr "y-b")) = .ok none :=
  ⟨rfl,
   (search_extra_variables_spec (pyStr "q") (pyStr "index") (pyStr "off") .pyNone
      (pyStr "mr") (pyStr "x-a", pyStr "1") [(pyStr "y-b", pyStr "2"), (pyStr "x-a", pyStr "3")]
      (Or.inl rfl) rfl).2 (pyStr "x-a") rfl,
   rfl,
   by
    have h := (search_extra_variables_spec (pyStr "q") (pyStr "index") (pyStr "off") .pyNone
      (pyStr "mr") (pyStr "x-a", pyStr "1") [(pyStr "y-b", pyStr "2"), (pyStr "x-a", pyStr "3")]
      (Or.inl rfl) rfl).1 (pyStr "y-b") rfl
    rw [h]
    rfl⟩

end Pyhkp
